import Mathlib

/-!
Shallow embedding of `src/index.ts` of cloudflare-zt-devices-internal-dns:
a Cloudflare Worker that reconciles a zero-trust device inventory against a
DNS zone's A records.  Strings are modelled as `List Char`; JavaScript
objects used as string-keyed maps are modelled as insertion-ordered
association lists (the ids involved are opaque hex strings, for which JS
object iteration order is insertion order); JavaScript `Date` values are
modelled as `Option Nat` with `none` standing for an Invalid Date (NaN);
the nullable/undefinable `ip` field is modelled by an explicit `JVal`.
-/

set_option autoImplicit false

namespace ZTDNS

/-- Strings are modelled as lists of characters. -/
abbrev Str := List Char

/-- The JavaScript values the `ip` field can hold: `null`, `undefined`, or a
string. -/
inductive JVal where
  | jnull
  | jundef
  | jstr (s : Str)
deriving DecidableEq, Repr

/-- The JS nullish-coalescing operator `v ?? d`: both `null` and `undefined`
fall back to the default. -/
def jsNullish (v : JVal) (d : Str) : Str :=
  match v with
  | JVal.jstr s => s
  | _ => d

/-- JS `<` on `Date` values: an Invalid Date compares as NaN, so every
comparison involving one is false. -/
def jsLt (a b : Option Nat) : Bool :=
  match a, b with
  | some x, some y => decide (x < y)
  | _, _ => false

/-- One raw device observation from the zero-trust device directory, as
iterated by `CLIENT.zeroTrust.devices.devices.list`. -/
structure Observation where
  id : Str
  name : Str
  updated_at : Str
deriving DecidableEq, Repr

/-- The `Device` record type of the source: `{name, updated, ip}`. -/
structure Device where
  name : Str
  updated : Option Nat
  ip : JVal
deriving DecidableEq, Repr

/-- JS assignment `m[k] = v` on an object used as a map: replace in place if
the key is present, otherwise append. -/
def objInsert {α : Type} (m : List (Str × α)) (k : Str) (v : α) : List (Str × α) :=
  if m.any (fun e => e.1 == k) then
    m.map (fun e => if e.1 == k then (e.1, v) else e)
  else
    m ++ [(k, v)]

/-- The loop body of `get_devices`: one observation applied to the map
built so far.  `parseDate` models `new Date(s)`: `none` is an Invalid
Date.  `existing` collects the already-stored devices sharing the
observation's name; the observation is stored iff there is none or the
first such device has a strictly older timestamp.  Note the source never
deletes the older same-name entry. -/
def devStep (parseDate : Str → Option Nat) (devices : List (Str × Device))
    (o : Observation) : List (Str × Device) :=
  let updated := parseDate o.updated_at
  let existing := (devices.map Prod.snd).filter (fun d => d.name == o.name)
  match existing with
  | [] => objInsert devices o.id ⟨o.name, updated, JVal.jnull⟩
  | d :: _ =>
    if jsLt d.updated updated then
      objInsert devices o.id ⟨o.name, updated, JVal.jnull⟩
    else
      devices

/-- `get_devices` of the source: fold the observation stream through
`devStep`, starting from the empty map. -/
def get_devices (parseDate : Str → Option Nat) (obs : List Observation) :
    List (Str × Device) :=
  obs.foldl (devStep parseDate) []

/-- The shape of a response to the WARP CGNAT-IP lookup performed by
`get_ip`.  `jsonOk` is whether `response.json()` parses; `success` is
whether `json.success === true`; `resultMeta` is `none` when evaluating
`json.result.metadata` throws (missing `result` or `metadata`), and
`some v` when the metadata object is present with `v` its `ipv4` field
(`none` = field absent, i.e. `undefined`). -/
structure IpResponse where
  status : Nat
  jsonOk : Bool
  success : Bool
  resultMeta : Option (Option Str)
deriving DecidableEq, Repr

/-- `get_ip` of the source: non-200 status → `null`; JSON parse failure →
caught → `null`; `success !== true` → `null`; `json.result.metadata`
throwing → caught → `null`; otherwise the `ipv4` field, which is
`undefined` when absent. -/
def get_ip (r : IpResponse) : JVal :=
  if r.status ≠ 200 then JVal.jnull
  else if ¬ r.jsonOk then JVal.jnull
  else if ¬ r.success then JVal.jnull
  else
    match r.resultMeta with
    | none => JVal.jnull
    | some none => JVal.jundef
    | some (some s) => JVal.jstr s

/-- The IP-assignment loop of `scheduled`: for each device id, look up the
ip; `continue` when it is strictly `null` (=== null), otherwise assign it
(even when it is `undefined`). -/
def assign_ips (resolver : Str → IpResponse) (devices : List (Str × Device)) :
    List (Str × Device) :=
  devices.map (fun e =>
    let ip := get_ip (resolver e.1)
    if ip = JVal.jnull then e else (e.1, { e.2 with ip := ip }))

/-- One raw A record as returned by `CLIENT.dns.records.list`; `content`
may be absent. -/
structure RawRecord where
  id : Str
  name : Str
  content : Option Str
deriving DecidableEq, Repr

/-- The `Record` type of the source: `{name, content}`. -/
structure Record where
  name : Str
  content : Str
deriving DecidableEq, Repr

/-- `get_dns_records` of the source: index the listed A records by id,
defaulting a missing `content` to the empty string (`record.content ?? ''`). -/
def get_dns_records (raw : List RawRecord) : List (Str × Record) :=
  raw.foldl (fun records r =>
    objInsert records r.id ⟨r.name, r.content.getD []⟩) []

/-- JS `str.split(".")` on a list of characters: split at every `'.'`,
keeping empty pieces (`"".split(".") = [""]`). -/
def splitOnDot : Str → List Str
  | [] => [[]]
  | c :: cs =>
    if c = '.' then [] :: splitOnDot cs
    else
      match splitOnDot cs with
      | [] => [[c]]
      | p :: ps => (c :: p) :: ps

/-- The regex test `/^\d+$/.test(part)`: nonempty and all decimal digits. -/
def jsAllDigits (p : Str) : Bool :=
  !p.isEmpty && p.all Char.isDigit

/-- `Number(part)` for a string of decimal digits. -/
def digitsToNat (p : Str) : Nat :=
  p.foldl (fun n c => 10 * n + (c.toNat - Char.toNat '0')) 0

/-- The character for a decimal digit value below ten. -/
def digitChar (n : Nat) : Char :=
  Char.ofNat (Char.toNat '0' + n)

/-- Canonical decimal numeral of a natural number, fuelled so that it
reduces by kernel computation. -/
def toDecimalAux : Nat → Nat → Str
  | 0, _ => []
  | fuel + 1, n =>
    if n < 10 then [digitChar n]
    else toDecimalAux fuel (n / 10) ++ [digitChar (n % 10)]

/-- `String(num)` for a natural number: its canonical decimal numeral. -/
def toDecimal (n : Nat) : Str :=
  toDecimalAux (n + 1) n

/-- `isIPv4` of the source: split on dots, demand exactly four parts, and
for each part demand all-digits, a value of at most 255, and that the
canonical decimal rendering of the value equals the part (rejecting
leading zeros). -/
def isIPv4 (s : Str) : Bool :=
  let parts := splitOnDot s
  if parts.length ≠ 4 then false
  else
    parts.all (fun p =>
      if ¬ jsAllDigits p then false
      else
        let num := digitsToNat p
        decide (num ≤ 255) && (toDecimal num == p))

/-- The fixed record type string `"A"`. -/
def aType : Str := ['A']

/-- `[device.name.toLowerCase(), zone_name].join('.')`. -/
def fqdn (zone_name : Str) (device : Device) : Str :=
  device.name.map Char.toLower ++ '.' :: zone_name

/-- A DNS mutation issued to the record store: `CLIENT.dns.records.create`
or `CLIENT.dns.records.update`. -/
inductive Mutation where
  | create (name : Str) (rtype : Str) (content : Str) (ttl : Nat)
  | update (id : Str) (name : Str) (rtype : Str) (content : Str) (ttl : Nat)
deriving DecidableEq, Repr

/-- The per-device outcome printed by `update_dns_record`'s final log line:
`created`, `updated` or `untouched`.  When the device's address fails IPv4
validation the function returns before the log line, so no outcome is
produced at all; this is modelled as `none` (the device is skipped). -/
inductive Outcome where
  | created
  | updated
  | untouched
deriving DecidableEq, Repr

/-- `update_dns_record` of the source, as a pure function from the record
snapshot and the device to the list of mutations issued (at most one) and
the outcome logged (`none` = early return, device skipped). -/
def update_dns_record (zone_name : Str) (records : List (Str × Record))
    (device : Device) : List Mutation × Option Outcome :=
  let ttl := 300
  let content := jsNullish device.ip []
  if ¬ isIPv4 content then ([], none)
  else
    let name := fqdn zone_name device
    let entries := records.filter (fun e => e.2.name == name)
    match entries with
    | [] => ([Mutation.create name aType content ttl], some Outcome.created)
    | (id, record) :: _ =>
      if record.content = content then ([], some Outcome.untouched)
      else ([Mutation.update id name aType content ttl], some Outcome.updated)

/-- `update_dns_records` of the source in the run where every store call
succeeds: the mutations issued across all devices, in device order. -/
def update_dns_records (zone_name : Str) (records : List (Str × Record))
    (devices : List (Str × Device)) : List Mutation :=
  (devices.map (fun e => (update_dns_record zone_name records e.2).1)).flatten

/-- `update_dns_records` when store calls may throw.  `failP m = true`
means the call issuing `m` throws.  The source has no try/catch, so the
exception propagates out of the `for` loop: the failing call is the last
one attempted and the run ends in error.  Returns the attempted mutations
in order and whether the run ended in an uncaught exception. -/
def run_updates_f (failP : Mutation → Bool) (zone_name : Str)
    (records : List (Str × Record)) : List (Str × Device) → List Mutation × Bool
  | [] => ([], false)
  | e :: rest =>
    match (update_dns_record zone_name records e.2).1 with
    | [] => run_updates_f failP zone_name records rest
    | m :: _ =>
      if failP m then ([m], true)
      else
        let r := run_updates_f failP zone_name records rest
        (m :: r.1, r.2)

/-- Effect of one mutation on the zone's record set (keyed by record id):
a create appends a record under a provider-chosen fresh id, an update
rewrites the name and content of every record carrying the targeted id. -/
def applyMut (freshId : Str) (records : List (Str × Record)) :
    Mutation → List (Str × Record)
  | Mutation.create n _ c _ => records ++ [(freshId, ⟨n, c⟩)]
  | Mutation.update i n _ c _ =>
    records.map (fun e => if e.1 == i then (e.1, ⟨n, c⟩) else e)

/-- Number of creates in a mutation list (consumes one fresh id each). -/
def countCreates : List Mutation → Nat
  | [] => 0
  | Mutation.create _ _ _ _ :: ms => countCreates ms + 1
  | Mutation.update _ _ _ _ _ :: ms => countCreates ms

/-- Apply a list of mutations in order; `fresh k` is the provider-chosen id
of the `k`-th created record. -/
def apply_mutations (fresh : Nat → Str) :
    List (Str × Record) → Nat → List Mutation → List (Str × Record)
  | records, _, [] => records
  | records, k, (Mutation.create n t c ttl) :: ms =>
    apply_mutations fresh (applyMut (fresh k) records (Mutation.create n t c ttl)) (k + 1) ms
  | records, k, (Mutation.update i n t c ttl) :: ms =>
    apply_mutations fresh (applyMut (fresh k) records (Mutation.update i n t c ttl)) k ms

/-- The worker's environment bindings; `none` models `undefined`. -/
structure EnvT where
  ACCOUNT_ID : Option Str
  ZONE_ID : Option Str
  API_TOKEN : Option Str
deriving DecidableEq, Repr

/-- The externally visible calls made by one `scheduled` invocation. -/
inductive Action where
  | getZone
  | listDevices
  | lookupIp (deviceId : Str)
  | listRecords
  | mutate (m : Mutation)
deriving DecidableEq, Repr

/-- The `scheduled` handler as a trace of external calls.  If any of the
three credentials is `undefined` it returns before doing anything; else it
fetches the zone name, lists devices, deduplicates, resolves each device's
ip, lists the zone's A records and issues the reconciliation mutations. -/
def scheduled (parseDate : Str → Option Nat) (env : EnvT)
    (obs : List Observation) (resolver : Str → IpResponse)
    (zone_name : Str) (raw : List RawRecord) : List Action :=
  if env.ACCOUNT_ID = none ∨ env.ZONE_ID = none ∨ env.API_TOKEN = none then []
  else
    let devices := assign_ips resolver (get_devices parseDate obs)
    let records := get_dns_records raw
    Action.getZone :: Action.listDevices ::
      devices.map (fun e => Action.lookupIp e.1) ++
      Action.listRecords ::
      (update_dns_records zone_name records devices).map Action.mutate

/-- The desired record content of a device: its ip with nullish fallback to
the empty string, exactly as `update_dns_record` computes it. -/
def contentOf (device : Device) : Str := jsNullish device.ip []

/-- The name-keyed view of the record snapshot used by `update_dns_record`:
the records whose stored name equals the computed fully-qualified name, in
snapshot order. -/
def mView (n : Str) (records : List (Str × Record)) : List (Str × Record) :=
  records.filter (fun e => e.2.name == n)

/-- The record name a mutation carries. -/
def mutName : Mutation → Str
  | Mutation.create n _ _ _ => n
  | Mutation.update _ n _ _ _ => n

/-- The record id an update mutation targets (`none` for creates). -/
def updId : Mutation → Option Str
  | Mutation.create _ _ _ _ => none
  | Mutation.update i _ _ _ _ => some i

/-- Join a list of pieces with `'.'` separators; the left inverse of
`splitOnDot`. -/
def joinDots : List Str → Str
  | [] => []
  | [p] => p
  | p :: ps => p ++ '.' :: joinDots ps

/-- The spec's description of the accepted set of `isIPv4`: exactly the
strings of four dot-separated decimal octets, each in 0–255, with no
leading-zero mismatch (i.e. each octet is the canonical decimal numeral of
its value). -/
def specIPv4 (s : Str) : Prop :=
  ∃ a b c d : Nat, a ≤ 255 ∧ b ≤ 255 ∧ c ≤ 255 ∧ d ≤ 255 ∧
    s = toDecimal a ++ '.' :: (toDecimal b ++ '.' :: (toDecimal c ++ '.' :: toDecimal d))

theorem objInsert_nil {α : Type} (k : Str) (v : α) : objInsert [] k v = [(k, v)] :=
  rfl

theorem jsLt_none_left (b : Option Nat) : jsLt none b = false := by
  cases b <;> rfl

theorem jsLt_none_right (a : Option Nat) : jsLt a none = false := by
  cases a <;> rfl

theorem udr_invalid (zone_name : Str) (records : List (Str × Record))
    (device : Device) (h : isIPv4 (contentOf device) = false) :
    update_dns_record zone_name records device = ([], none) := by
  unfold contentOf at h
  simp [update_dns_record, h]

theorem udr_create (zone_name : Str) (records : List (Str × Record))
    (device : Device) (h : isIPv4 (contentOf device) = true)
    (hE : mView (fqdn zone_name device) records = []) :
    update_dns_record zone_name records device =
      ([Mutation.create (fqdn zone_name device) aType (contentOf device) 300],
       some Outcome.created) := by
  unfold contentOf at *
  unfold mView at hE
  simp [update_dns_record, h, hE]

theorem udr_untouched (zone_name : Str) (records : List (Str × Record))
    (device : Device) (i : Str) (rec : Record) (tl : List (Str × Record))
    (h : isIPv4 (contentOf device) = true)
    (hE : mView (fqdn zone_name device) records = (i, rec) :: tl)
    (hc : rec.content = contentOf device) :
    update_dns_record zone_name records device = ([], some Outcome.untouched) := by
  unfold contentOf at *
  unfold mView at hE
  simp [update_dns_record, h, hE, hc]

theorem udr_updated (zone_name : Str) (records : List (Str × Record))
    (device : Device) (i : Str) (rec : Record) (tl : List (Str × Record))
    (h : isIPv4 (contentOf device) = true)
    (hE : mView (fqdn zone_name device) records = (i, rec) :: tl)
    (hc : rec.content ≠ contentOf device) :
    update_dns_record zone_name records device =
      ([Mutation.update i (fqdn zone_name device) aType (contentOf device) 300],
       some Outcome.updated) := by
  unfold contentOf at *
  unfold mView at hE
  simp [update_dns_record, h, hE, hc]

theorem udr_nil_of (zone_name : Str) (records : List (Str × Record))
    (device : Device) (hv : isIPv4 (contentOf device) = true)
    (h : (update_dns_record zone_name records device).1 = []) :
    ∃ i rec tl, mView (fqdn zone_name device) records = (i, rec) :: tl ∧
      rec.content = contentOf device := by
  cases hE : mView (fqdn zone_name device) records with
  | nil =>
    rw [udr_create zone_name records device hv hE] at h
    simp at h
  | cons a tl =>
    obtain ⟨i, rec⟩ := a
    by_cases hc : rec.content = contentOf device
    · exact ⟨i, rec, tl, rfl, hc⟩
    · rw [udr_updated zone_name records device i rec tl hv hE hc] at h
      simp at h

theorem udr_mut_mem (zone_name : Str) (records : List (Str × Record))
    (device : Device) (m : Mutation)
    (h : m ∈ (update_dns_record zone_name records device).1) :
    isIPv4 (contentOf device) = true ∧
      ((mView (fqdn zone_name device) records = [] ∧
          m = Mutation.create (fqdn zone_name device) aType (contentOf device) 300) ∨
       (∃ i rec tl, mView (fqdn zone_name device) records = (i, rec) :: tl ∧
          rec.content ≠ contentOf device ∧
          m = Mutation.update i (fqdn zone_name device) aType (contentOf device) 300)) := by
  by_cases hv : isIPv4 (contentOf device) = true
  · refine ⟨hv, ?_⟩
    cases hE : mView (fqdn zone_name device) records with
    | nil =>
      rw [udr_create zone_name records device hv hE] at h
      simp at h
      exact Or.inl ⟨rfl, h⟩
    | cons a tl =>
      obtain ⟨i, rec⟩ := a
      by_cases hc : rec.content = contentOf device
      · rw [udr_untouched zone_name records device i rec tl hv hE hc] at h
        simp at h
      · rw [udr_updated zone_name records device i rec tl hv hE hc] at h
        simp at h
        exact Or.inr ⟨i, rec, tl, rfl, hc, h⟩
  · rw [udr_invalid zone_name records device (by simpa using hv)] at h
    simp at h

/-- C9: if any of the three required credentials (account id, zone id, API
token) is absent, `scheduled` returns before doing anything: no zone-name
lookup, device listing, address lookup, record listing or record mutation
is performed (the external-call trace is empty). -/
theorem scheduled_missing_credentials_aborts (parseDate : Str → Option Nat)
    (env : EnvT) (obs : List Observation) (resolver : Str → IpResponse)
    (zone_name : Str) (raw : List RawRecord)
    (h : env.ACCOUNT_ID = none ∨ env.ZONE_ID = none ∨ env.API_TOKEN = none) :
    scheduled parseDate env obs resolver zone_name raw = [] := by
  unfold scheduled
  rw [if_pos h]

/-- Witness for C9 at a concrete input: the token is absent, so the trace
is empty. -/
theorem scheduled_missing_credentials_aborts_witness :
    scheduled (fun _ => some 0) ⟨some ['a'], some ['z'], none⟩
      [⟨['i'], ['n'], ['t']⟩] (fun _ => ⟨200, true, true, some (some ['1'])⟩)
      ['z'] [⟨['r'], ['m'], some ['c']⟩] = [] :=
  scheduled_missing_credentials_aborts (fun _ => some 0)
    ⟨some ['a'], some ['z'], none⟩ [⟨['i'], ['n'], ['t']⟩]
    (fun _ => ⟨200, true, true, some (some ['1'])⟩) ['z']
    [⟨['r'], ['m'], some ['c']⟩] (Or.inr (Or.inr rfl))

/-- C1: the claim says that for each distinct name exactly one entry
survives deduplication — the earliest-seen observation with maximal
`lastUpdated`.  The code violates this: when a strictly newer observation
for an already-seen name arrives, `get_devices` stores it under its own id
but never deletes the older same-name entry, so both survive.  Here two
observations named `n` (timestamps 1 then 2) both end up in the result,
where the claim predicts only the second. -/
theorem get_devices_keeps_stale_duplicate :
    get_devices (fun s => if s = ['1'] then some 1 else some 2)
      [⟨['a'], ['n'], ['1']⟩, ⟨['b'], ['n'], ['2']⟩] =
      [(['a'], ⟨['n'], some 1, JVal.jnull⟩),
       (['b'], ⟨['n'], some 2, JVal.jnull⟩)] := by
  decide

/-- C4: a device whose matched record's content already equals the desired
address produces zero mutations, the outcome is `untouched`, and (the
mutation list being empty) the record set is left exactly as it was. -/
theorem noop_when_content_matches (zone_name : Str)
    (records : List (Str × Record)) (device : Device) (i : Str) (rec : Record)
    (tl : List (Str × Record)) (fresh : Nat → Str) (k : Nat)
    (hip : isIPv4 (contentOf device) = true)
    (hE : mView (fqdn zone_name device) records = (i, rec) :: tl)
    (hc : rec.content = contentOf device) :
    update_dns_record zone_name records device = ([], some Outcome.untouched) ∧
      apply_mutations fresh records k [] = records :=
  ⟨udr_untouched zone_name records device i rec tl hip hE hc, rfl⟩

/-- Witness for C4 at a concrete input: record `a.z` already holds
`1.2.3.4`, the device resolves to `1.2.3.4`, so the outcome is `untouched`
with no mutation and the snapshot is unchanged. -/
theorem noop_when_content_matches_witness :
    update_dns_record ['z'] [(['r'], ⟨"a.z".data, "1.2.3.4".data⟩)]
        ⟨['a'], some 1, JVal.jstr "1.2.3.4".data⟩ = ([], some Outcome.untouched) ∧
      apply_mutations (fun _ => ['f']) [(['r'], ⟨"a.z".data, "1.2.3.4".data⟩)] 0 [] =
        [(['r'], ⟨"a.z".data, "1.2.3.4".data⟩)] :=
  noop_when_content_matches ['z'] [(['r'], ⟨"a.z".data, "1.2.3.4".data⟩)]
    ⟨['a'], some 1, JVal.jstr "1.2.3.4".data⟩ ['r'] ⟨"a.z".data, "1.2.3.4".data⟩
    [] (fun _ => ['f']) 0 (by decide) (by decide) (by decide)

/-- C3: for a device with a validated IPv4 address, if the first record
matching its fully-qualified name has different content the engine issues
exactly one UPDATE carrying the desired content (and no CREATE), and if no
record matches the name it issues exactly one CREATE with type `A`, the
desired content and TTL 300. -/
theorem create_update_decision (zone_name : Str)
    (records : List (Str × Record)) (device : Device)
    (hip : isIPv4 (contentOf device) = true) :
    (∀ i rec tl, mView (fqdn zone_name device) records = (i, rec) :: tl →
        rec.content ≠ contentOf device →
        update_dns_record zone_name records device =
          ([Mutation.update i (fqdn zone_name device) aType (contentOf device) 300],
           some Outcome.updated)) ∧
    (mView (fqdn zone_name device) records = [] →
        update_dns_record zone_name records device =
          ([Mutation.create (fqdn zone_name device) aType (contentOf device) 300],
           some Outcome.created)) :=
  ⟨fun i rec tl hE hc => udr_updated zone_name records device i rec tl hip hE hc,
   fun hE => udr_create zone_name records device hip hE⟩

/-- Witness for C3 at the spec's own example: record `a.example.com`
holding `1.1.1.1` with desired content `2.2.2.2` yields exactly one UPDATE
with content `2.2.2.2` and zero CREATEs. -/
theorem create_update_decision_witness :
    update_dns_record "example.com".data
        [(['r'], ⟨"a.example.com".data, "1.1.1.1".data⟩)]
        ⟨['a'], some 1, JVal.jstr "2.2.2.2".data⟩ =
      ([Mutation.update ['r'] "a.example.com".data aType "2.2.2.2".data 300],
       some Outcome.updated) :=
  (create_update_decision "example.com".data
      [(['r'], ⟨"a.example.com".data, "1.1.1.1".data⟩)]
      ⟨['a'], some 1, JVal.jstr "2.2.2.2".data⟩ (by decide)).1
    ['r'] ⟨"a.example.com".data, "1.1.1.1".data⟩ [] (by decide) (by decide)

/-- C10: a listed A record with no `content` field is stored with the empty
string as content; and a device with a validated address whose
fully-qualified name first matches a record with empty content always
issues an UPDATE (the record is never classified `untouched`, the empty
string being unequal to every validated address). -/
theorem empty_content_never_untouched :
    (∀ r : RawRecord, r.content = none →
        get_dns_records [r] = [(r.id, ⟨r.name, []⟩)]) ∧
    (∀ (zone_name : Str) (records : List (Str × Record)) (device : Device)
        (i : Str) (rec : Record) (tl : List (Str × Record)),
        isIPv4 (contentOf device) = true →
        mView (fqdn zone_name device) records = (i, rec) :: tl →
        rec.content = [] →
        update_dns_record zone_name records device =
          ([Mutation.update i (fqdn zone_name device) aType (contentOf device) 300],
           some Outcome.updated)) := by
  constructor
  · intro r hr
    obtain ⟨rid, rname, rcontent⟩ := r
    cases hr
    rfl
  · intro zone_name records device i rec tl hip hE hc
    refine udr_updated zone_name records device i rec tl hip hE ?_
    intro heq
    rw [hc] at heq
    rw [← heq] at hip
    exact absurd hip (by decide)

/-- Witness for C10 at a concrete input: a raw record without content is
indexed with empty content, and a device resolving to `1.2.3.4` whose name
matches that record issues exactly one UPDATE. -/
theorem empty_content_never_untouched_witness :
    get_dns_records [⟨['r'], "a.z".data, none⟩] = [(['r'], ⟨"a.z".data, []⟩)] ∧
      update_dns_record ['z'] [(['r'], ⟨"a.z".data, []⟩)]
          ⟨['a'], some 1, JVal.jstr "1.2.3.4".data⟩ =
        ([Mutation.update ['r'] "a.z".data aType "1.2.3.4".data 300],
         some Outcome.updated) :=
  ⟨empty_content_never_untouched.1 ⟨['r'], "a.z".data, none⟩ rfl,
   empty_content_never_untouched.2 ['z'] [(['r'], ⟨"a.z".data, []⟩)]
     ⟨['a'], some 1, JVal.jstr "1.2.3.4".data⟩ ['r'] ⟨"a.z".data, []⟩ []
     (by decide) (by decide) (by decide)⟩

/-- Counterexample to C8 as stated: a malformed timestamp (`new Date`
yields an Invalid Date, it never throws) does not make `get_devices` skip
the observation.  A single observation whose timestamp fails to parse is
inserted into the mapping, where the claim predicts it contributes no
entry. -/
theorem malformed_timestamp_inserted :
    get_devices (fun _ => none) [⟨['a'], ['n'], ['x']⟩] ≠ [] ∧
      get_devices (fun _ => none) [⟨['a'], ['n'], ['x']⟩] =
        [(['a'], ⟨['n'], none, JVal.jnull⟩)] := by
  decide

theorem devStep_eq (pd : Str → Option Nat) (d : List (Str × Device))
    (o : Observation) :
    devStep pd d o =
      match (d.map Prod.snd).filter (fun x => x.name == o.name) with
      | [] => objInsert d o.id ⟨o.name, pd o.updated_at, JVal.jnull⟩
      | v :: _ =>
        if jsLt v.updated (pd o.updated_at) then
          objInsert d o.id ⟨o.name, pd o.updated_at, JVal.jnull⟩
        else d :=
  rfl

theorem objInsert_fresh {α : Type} (m : List (Str × α)) (k : Str) (v : α)
    (hk : k ∉ m.map Prod.fst) :
    objInsert m k v = m ++ [(k, v)] := by
  unfold objInsert
  have hc : (m.any fun e => e.1 == k) = false := by
    rw [List.any_eq_false]
    intro e he hbe
    exact hk (List.mem_map.mpr ⟨e, he, beq_iff_eq.mp hbe⟩)
  rw [if_neg (by simp [hc])]

theorem map_fst_overwrite {α : Type} (m : List (Str × α)) (k : Str) (v : α) :
    (m.map (fun e => if e.1 == k then (e.1, v) else e)).map Prod.fst =
      m.map Prod.fst := by
  induction m with
  | nil => rfl
  | cons e rest ih =>
    rw [List.map_cons, List.map_cons, List.map_cons, ih]
    by_cases hb : (e.1 == k) = true <;> simp [hb]

theorem objInsert_keys {α : Type} (m : List (Str × α)) (k : Str) (v : α)
    (x : Str) (hx : x ∈ (objInsert m k v).map Prod.fst) :
    x ∈ m.map Prod.fst ∨ x = k := by
  unfold objInsert at hx
  by_cases hc : (m.any fun e => e.1 == k) = true
  · rw [if_pos hc, map_fst_overwrite] at hx
    exact Or.inl hx
  · rw [if_neg hc, List.map_append] at hx
    rcases List.mem_append.mp hx with h | h
    · exact Or.inl h
    · exact Or.inr (by simpa using h)

theorem devStep_insert (pd : Str → Option Nat) (d : List (Str × Device))
    (o : Observation)
    (hempty : (d.map Prod.snd).filter (fun x => x.name == o.name) = [])
    (hid : o.id ∉ d.map Prod.fst) :
    devStep pd d o = d ++ [(o.id, ⟨o.name, pd o.updated_at, JVal.jnull⟩)] := by
  rw [devStep_eq, hempty]
  exact objInsert_fresh d o.id _ hid

theorem devStep_drop_stale (pd : Str → Option Nat) (d : List (Str × Device))
    (o : Observation) (v : Device) (tl : List Device)
    (hE : (d.map Prod.snd).filter (fun x => x.name == o.name) = v :: tl)
    (hlt : jsLt v.updated (pd o.updated_at) = false) :
    devStep pd d o = d := by
  rw [devStep_eq, hE]
  show (if jsLt v.updated (pd o.updated_at) = true then
      objInsert d o.id ⟨o.name, pd o.updated_at, JVal.jnull⟩ else d) = d
  rw [if_neg (by simp [hlt])]

theorem devStep_cases (pd : Str → Option Nat) (d : List (Str × Device))
    (o : Observation) :
    devStep pd d o = d ∨
      devStep pd d o = objInsert d o.id ⟨o.name, pd o.updated_at, JVal.jnull⟩ := by
  rw [devStep_eq]
  cases hE : (d.map Prod.snd).filter (fun x => x.name == o.name) with
  | nil => exact Or.inr rfl
  | cons v tl =>
    by_cases hlt : jsLt v.updated (pd o.updated_at) = true
    · refine Or.inr ?_
      show (if jsLt v.updated (pd o.updated_at) = true then
          objInsert d o.id ⟨o.name, pd o.updated_at, JVal.jnull⟩ else d) =
        objInsert d o.id ⟨o.name, pd o.updated_at, JVal.jnull⟩
      rw [if_pos hlt]
    · refine Or.inl ?_
      show (if jsLt v.updated (pd o.updated_at) = true then
          objInsert d o.id ⟨o.name, pd o.updated_at, JVal.jnull⟩ else d) = d
      rw [if_neg hlt]

theorem devStep_keys (pd : Str → Option Nat) (d : List (Str × Device))
    (o : Observation) (k : Str) (hk : k ∈ (devStep pd d o).map Prod.fst) :
    k ∈ d.map Prod.fst ∨ k = o.id := by
  rcases devStep_cases pd d o with h | h
  · rw [h] at hk
    exact Or.inl hk
  · rw [h] at hk
    exact objInsert_keys d o.id _ k hk

theorem get_devices_append (pd : Str → Option Nat) (l₁ l₂ : List Observation) :
    get_devices pd (l₁ ++ l₂) = l₂.foldl (devStep pd) (get_devices pd l₁) := by
  unfold get_devices
  rw [List.foldl_append]

theorem foldl_devStep_keys (pd : Str → Option Nat) :
    ∀ (obs : List Observation) (d : List (Str × Device)) (k : Str),
      k ∈ (obs.foldl (devStep pd) d).map Prod.fst →
      k ∈ d.map Prod.fst ∨ k ∈ obs.map Observation.id := by
  intro obs
  induction obs with
  | nil => intro d k hk; exact Or.inl hk
  | cons o rest ih =>
    intro d k hk
    rw [List.foldl_cons] at hk
    rcases ih (devStep pd d o) k hk with h | h
    · rcases devStep_keys pd d o k h with h0 | h0
      · exact Or.inl h0
      · exact Or.inr (by rw [List.map_cons, h0]; exact List.mem_cons_self _ _)
    · exact Or.inr (by rw [List.map_cons]; exact List.mem_cons_of_mem _ h)

theorem filter_map_snd (d : List (Str × Device)) (n : Str) :
    (d.map Prod.snd).filter (fun v => v.name == n) =
      (d.filter (fun e => e.2.name == n)).map Prod.snd := by
  induction d with
  | nil => rfl
  | cons e rest ih =>
    rw [List.map_cons, List.filter_cons, List.filter_cons]
    by_cases hb : (e.2.name == n) = true
    · rw [if_pos hb, if_pos hb, List.map_cons, ih]
    · rw [if_neg hb, if_neg hb, ih]

theorem foldl_devStep_view (pd : Str → Option Nat) (nm : Str) (oid : Str)
    (dev : Device) (hupd : dev.updated = none) :
    ∀ (post : List Observation) (d : List (Str × Device)),
      d.filter (fun e => e.2.name == nm) = [(oid, dev)] →
      (∀ o' ∈ post, o'.id ∉ d.map Prod.fst) →
      (post.map Observation.id).Nodup →
      (post.foldl (devStep pd) d).filter (fun e => e.2.name == nm) =
        [(oid, dev)] := by
  intro post
  induction post with
  | nil => intro d hinv _ _; exact hinv
  | cons o' rest ih =>
    intro d hinv hids hnd
    rw [List.foldl_cons]
    have hid0 : o'.id ∉ d.map Prod.fst := hids o' (List.mem_cons_self _ _)
    by_cases hn : o'.name = nm
    · have hE : (d.map Prod.snd).filter (fun x => x.name == o'.name) = [dev] := by
        rw [hn, filter_map_snd, hinv]
        rfl
      rw [devStep_drop_stale pd d o' dev [] hE (by rw [hupd, jsLt_none_left])]
      exact ih d hinv (fun x hx => hids x (List.mem_cons_of_mem _ hx))
        (List.nodup_cons.mp hnd).2
    · rcases devStep_cases pd d o' with hstep | hstep
      · rw [hstep]
        exact ih d hinv (fun x hx => hids x (List.mem_cons_of_mem _ hx))
          (List.nodup_cons.mp hnd).2
      · rw [objInsert_fresh d o'.id _ hid0] at hstep
        rw [hstep]
        have hsingle : List.filter (fun e => e.2.name == nm)
            [(o'.id, (⟨o'.name, pd o'.updated_at, JVal.jnull⟩ : Device))] = [] := by
          simp [List.filter_cons, beq_eq_false_iff_ne.mpr hn]
        have hinv' : (d ++
              [(o'.id, (⟨o'.name, pd o'.updated_at, JVal.jnull⟩ : Device))]).filter
            (fun e => e.2.name == nm) = [(oid, dev)] := by
          rw [List.filter_append, hinv, hsingle, List.append_nil]
        refine ih _ hinv' ?_ (List.nodup_cons.mp hnd).2
        intro x hx
        rw [List.map_append]
        intro hmem
        rcases List.mem_append.mp hmem with h | h
        · exact hids x (List.mem_cons_of_mem _ hx) h
        · have hxo : x.id = o'.id := by simpa using h
          exact (List.nodup_cons.mp hnd).1
            (hxo ▸ List.mem_map.mpr ⟨x, hx, rfl⟩)

/-- C8 amended: an observation with a malformed (unparseable) timestamp is
not skipped — `new Date` never throws, it yields an Invalid Date.  If an
entry with its name already exists when it is processed, the malformed
observation itself is dropped (the timestamp comparison against NaN is
false).  If no entry with its name exists, it is inserted with the invalid
timestamp; and provided observation ids are distinct (as device ids are),
it persists to the end of the batch as the only entry carrying its name:
every later observation of that name, however fresh, is dropped, since
every timestamp comparison against the invalid date is false. -/
theorem malformed_timestamp_behaviour (pd : Str → Option Nat)
    (pre post : List Observation) (o : Observation)
    (hmal : pd o.updated_at = none) :
    (((get_devices pd pre).map Prod.snd).filter
        (fun x => x.name == o.name) ≠ [] →
      get_devices pd (pre ++ [o]) = get_devices pd pre) ∧
    (((pre ++ o :: post).map Observation.id).Nodup →
      ((get_devices pd pre).map Prod.snd).filter
          (fun x => x.name == o.name) = [] →
      (get_devices pd (pre ++ o :: post)).filter
          (fun e => e.2.name == o.name) =
        [(o.id, ⟨o.name, none, JVal.jnull⟩)]) := by
  constructor
  · intro hne
    rw [get_devices_append, List.foldl_cons, List.foldl_nil]
    cases hE : ((get_devices pd pre).map Prod.snd).filter
        (fun x => x.name == o.name) with
    | nil => exact absurd hE hne
    | cons v tl =>
      exact devStep_drop_stale pd _ o v tl hE (by rw [hmal, jsLt_none_right])
  · intro hnd hempty
    rw [List.map_append, List.map_cons] at hnd
    have hmid := List.nodup_cons.mp (List.nodup_middle.mp hnd)
    have hdisj := List.disjoint_of_nodup_append hmid.2
    have hkeys : o.id ∉ (get_devices pd pre).map Prod.fst := by
      intro hmem
      rcases foldl_devStep_keys pd pre [] o.id hmem with h | h
      · exact absurd h (List.not_mem_nil _)
      · exact hmid.1 (List.mem_append.mpr (Or.inl h))
    rw [get_devices_append, List.foldl_cons,
      devStep_insert pd _ o hempty hkeys, hmal]
    apply foldl_devStep_view pd o.name o.id ⟨o.name, none, JVal.jnull⟩ rfl post _
    · rw [List.filter_append,
        show (get_devices pd pre).filter (fun e => e.2.name == o.name) = [] from
          List.map_eq_nil_iff.mp (by rw [← filter_map_snd]; exact hempty),
        List.nil_append]
      simp [List.filter_cons]
    · intro x hx
      rw [List.map_append]
      intro hmem
      rcases List.mem_append.mp hmem with h | h
      · rcases foldl_devStep_keys pd pre [] x.id h with h0 | h0
        · exact absurd h0 (List.not_mem_nil _)
        · exact hdisj h0 (List.mem_map.mpr ⟨x, hx, rfl⟩)
      · have hxo : x.id = o.id := by simpa using h
        exact hmid.1 (List.mem_append.mpr
          (Or.inr (hxo ▸ List.mem_map.mpr ⟨x, hx, rfl⟩)))
    · exact hmid.2.of_append_right

/-- Witness for the amended C8 at concrete inputs: timestamp `x` is
unparseable, the others parse.  A malformed observation arriving after a
valid same-name entry is dropped; and a malformed observation that is
first of its name (here after an unrelated entry) survives to the end of
the batch as the only `n`-named entry, a fresh later observation of `n`
being dropped. -/
theorem malformed_timestamp_behaviour_witness :
    get_devices (fun s => if s = ['x'] then none else some 5)
        [⟨['a'], ['n'], ['5']⟩, ⟨['b'], ['n'], ['x']⟩] =
      get_devices (fun s => if s = ['x'] then none else some 5)
        [⟨['a'], ['n'], ['5']⟩] ∧
    (get_devices (fun s => if s = ['x'] then none else some 5)
        [⟨['c'], ['m'], ['5']⟩, ⟨['a'], ['n'], ['x']⟩, ⟨['b'], ['n'], ['6']⟩]).filter
        (fun e => e.2.name == ['n']) =
      [(['a'], ⟨['n'], none, JVal.jnull⟩)] :=
  ⟨(malformed_timestamp_behaviour (fun s => if s = ['x'] then none else some 5)
      [⟨['a'], ['n'], ['5']⟩] [] ⟨['b'], ['n'], ['x']⟩ (by decide)).1 (by decide),
   (malformed_timestamp_behaviour (fun s => if s = ['x'] then none else some 5)
      [⟨['c'], ['m'], ['5']⟩] [⟨['b'], ['n'], ['6']⟩] ⟨['a'], ['n'], ['x']⟩
      (by decide)).2 (by decide) (by decide)⟩

/-- C6: every resolver failure mode — non-200 status, unparseable body,
`success` flag not true, a throwing access to `result.metadata`, or a
present metadata block without the `ipv4` field — leaves the device's
address unknown (`null` or `undefined`, never an address string), with no
exception escaping; and a device whose ip is `null` or `undefined` gets no
CREATE or UPDATE and no logged outcome (it is skipped: the nullish
fallback yields the empty string, which fails IPv4 validation). -/
theorem resolver_failures_skip_device :
    (∀ r : IpResponse, r.status ≠ 200 → get_ip r = JVal.jnull) ∧
    (∀ r : IpResponse, r.jsonOk = false → get_ip r = JVal.jnull) ∧
    (∀ r : IpResponse, r.success = false → get_ip r = JVal.jnull) ∧
    (∀ r : IpResponse, r.resultMeta = some none →
        get_ip r = JVal.jnull ∨ get_ip r = JVal.jundef) ∧
    (∀ r : IpResponse, r.resultMeta = none → get_ip r = JVal.jnull) ∧
    (∀ (zone_name : Str) (records : List (Str × Record)) (device : Device),
        device.ip = JVal.jnull ∨ device.ip = JVal.jundef →
        update_dns_record zone_name records device = ([], none)) := by
  refine ⟨fun r h => ?_, fun r h => ?_, fun r h => ?_, fun r h => ?_,
    fun r h => ?_, fun zone_name records device h => ?_⟩
  · simp [get_ip, h]
  · simp [get_ip, h]
  · simp [get_ip, h]
  · unfold get_ip
    split_ifs <;> simp [h]
  · simp [get_ip, h]
  · have hc : contentOf device = [] := by
      rcases h with h | h <;> simp [contentOf, h, jsNullish]
    exact udr_invalid zone_name records device (by rw [hc]; decide)

/-- Witness for C6 at concrete inputs: a 500 status, an unparseable body,
a false success flag, a metadata block missing `ipv4`, a throwing metadata
access, and a device left with `undefined` ip, which is skipped with no
mutation. -/
theorem resolver_failures_skip_device_witness :
    get_ip ⟨500, true, true, some (some "1.2.3.4".data)⟩ = JVal.jnull ∧
      get_ip ⟨200, false, true, some (some "1.2.3.4".data)⟩ = JVal.jnull ∧
      get_ip ⟨200, true, false, some (some "1.2.3.4".data)⟩ = JVal.jnull ∧
      (get_ip ⟨200, true, true, some none⟩ = JVal.jnull ∨
        get_ip ⟨200, true, true, some none⟩ = JVal.jundef) ∧
      get_ip ⟨200, true, true, none⟩ = JVal.jnull ∧
      update_dns_record ['z'] [(['r'], ⟨"a.z".data, "1.2.3.4".data⟩)]
          ⟨['a'], some 1, JVal.jundef⟩ = ([], none) :=
  ⟨resolver_failures_skip_device.1 ⟨500, true, true, some (some "1.2.3.4".data)⟩
     (by decide),
   resolver_failures_skip_device.2.1 ⟨200, false, true, some (some "1.2.3.4".data)⟩
     rfl,
   resolver_failures_skip_device.2.2.1 ⟨200, true, false, some (some "1.2.3.4".data)⟩
     rfl,
   resolver_failures_skip_device.2.2.2.1 ⟨200, true, true, some none⟩ rfl,
   resolver_failures_skip_device.2.2.2.2.1 ⟨200, true, true, none⟩ rfl,
   resolver_failures_skip_device.2.2.2.2.2 ['z']
     [(['r'], ⟨"a.z".data, "1.2.3.4".data⟩)] ⟨['a'], some 1, JVal.jundef⟩
     (Or.inr rfl)⟩

theorem update_dns_records_cons (zone_name : Str) (records : List (Str × Record))
    (x : Str × Device) (l : List (Str × Device)) :
    update_dns_records zone_name records (x :: l) =
      (update_dns_record zone_name records x.2).1 ++
        update_dns_records zone_name records l := by
  simp [update_dns_records]

theorem udr_len (zone_name : Str) (records : List (Str × Record)) (device : Device) :
    (update_dns_record zone_name records device).1 = [] ∨
      ∃ m, (update_dns_record zone_name records device).1 = [m] := by
  by_cases hv : isIPv4 (contentOf device) = true
  · cases hE : mView (fqdn zone_name device) records with
    | nil => exact Or.inr ⟨_, by rw [udr_create zone_name records device hv hE]⟩
    | cons a tl =>
      obtain ⟨i, rec⟩ := a
      by_cases hc : rec.content = contentOf device
      · exact Or.inl (by rw [udr_untouched zone_name records device i rec tl hv hE hc])
      · exact Or.inr ⟨_, by rw [udr_updated zone_name records device i rec tl hv hE hc]⟩
  · exact Or.inl (by rw [udr_invalid zone_name records device (by simpa using hv)])

/-- Counterexample to C7 as stated: with two devices both needing a CREATE
and a store whose calls throw, the first device's failing call is the last
thing attempted — the second device's mutation is never issued and the run
ends in an uncaught error, where the claim predicts the remaining devices'
mutations are still attempted and the cycle does not abort. -/
theorem mutation_failure_counterexample :
    run_updates_f (fun _ => true) ['z'] []
        [(['a'], ⟨['d'], some 1, JVal.jstr "1.2.3.4".data⟩),
         (['b'], ⟨['e'], some 1, JVal.jstr "5.6.7.8".data⟩)] =
      ([Mutation.create "d.z".data aType "1.2.3.4".data 300], true) := by
  decide

/-- C7 amended: the source has no try/catch around the store calls, so a
throwing create/update aborts not just that device's mutation but the
whole remainder of the cycle: the failing call is the last one attempted,
devices after it are not processed, and the run surfaces the error.
Devices before the failing one are unaffected. -/
theorem mutation_failure_aborts_cycle (failP : Mutation → Bool)
    (zone_name : Str) (records : List (Str × Record))
    (pre : List (Str × Device)) (e : Str × Device) (rest : List (Str × Device))
    (m : Mutation)
    (hpre : ∀ x ∈ pre, ∀ m' ∈ (update_dns_record zone_name records x.2).1,
        failP m' = false)
    (hm : (update_dns_record zone_name records e.2).1 = [m])
    (hf : failP m = true) :
    run_updates_f failP zone_name records (pre ++ e :: rest) =
      (update_dns_records zone_name records pre ++ [m], true) := by
  induction pre with
  | nil => simp [run_updates_f, hm, hf, update_dns_records]
  | cons x pre ih =>
    have hrest : ∀ x' ∈ pre, ∀ m' ∈ (update_dns_record zone_name records x'.2).1,
        failP m' = false :=
      fun x' hx' => hpre x' (List.mem_cons_of_mem _ hx')
    rcases udr_len zone_name records x.2 with h0 | ⟨m', hm'⟩
    · rw [List.cons_append]
      simp only [run_updates_f, h0]
      rw [update_dns_records_cons, h0, List.nil_append]
      exact ih hrest
    · have hfm' : failP m' = false :=
        hpre x (List.mem_cons_self x pre) m'
          (by rw [hm']; exact List.mem_singleton_self m')
      rw [List.cons_append]
      simp only [run_updates_f, hm']
      rw [if_neg (by simp [hfm']), ih hrest, update_dns_records_cons, hm']
      simp

/-- Witness for the amended C7 at concrete inputs: the first device has no
resolvable address (no call), the second device's CREATE throws, and the
third device is never reached: the attempted trace is exactly the failing
CREATE and the run errors. -/
theorem mutation_failure_aborts_cycle_witness :
    run_updates_f (fun _ => true) ['z'] []
        ([(['p'], ⟨['p'], some 1, JVal.jnull⟩)] ++
          (['a'], (⟨['d'], some 1, JVal.jstr "1.2.3.4".data⟩ : Device)) ::
            [(['b'], ⟨['e'], some 1, JVal.jstr "5.6.7.8".data⟩)]) =
      (update_dns_records ['z'] [] [(['p'], ⟨['p'], some 1, JVal.jnull⟩)] ++
        [Mutation.create "d.z".data aType "1.2.3.4".data 300], true) :=
  mutation_failure_aborts_cycle (fun _ => true) ['z'] []
    [(['p'], ⟨['p'], some 1, JVal.jnull⟩)]
    (['a'], ⟨['d'], some 1, JVal.jstr "1.2.3.4".data⟩)
    [(['b'], ⟨['e'], some 1, JVal.jstr "5.6.7.8".data⟩)]
    (Mutation.create "d.z".data aType "1.2.3.4".data 300)
    (by decide) (by decide) rfl

theorem digitChar_isDigit (n : Nat) (h : n < 10) : (digitChar n).isDigit = true := by
  interval_cases n <;> decide

theorem digitChar_val (n : Nat) (h : n < 10) :
    (digitChar n).toNat - Char.toNat '0' = n := by
  interval_cases n <;> decide

theorem toDecimalAux_fuel : ∀ f g n : Nat, n < f → n < g →
    toDecimalAux f n = toDecimalAux g n := by
  intro f
  induction f with
  | zero => intro g n hf hg; omega
  | succ f ih =>
    intro g n hf hg
    cases g with
    | zero => omega
    | succ g =>
      have hdiv : n / 10 < n ∨ n < 10 := by
        by_cases h : n < 10
        · exact Or.inr h
        · exact Or.inl (Nat.div_lt_self (by omega) (by omega))
      simp only [toDecimalAux]
      by_cases h : n < 10
      · rw [if_pos h, if_pos h]
      · rw [if_neg h, if_neg h, ih g (n / 10) (by omega) (by omega)]

theorem toDecimal_eq (n : Nat) :
    toDecimal n =
      if n < 10 then [digitChar n]
      else toDecimal (n / 10) ++ [digitChar (n % 10)] := by
  show toDecimalAux (n + 1) n = _
  rw [show toDecimalAux (n + 1) n =
      if n < 10 then [digitChar n]
      else toDecimalAux n (n / 10) ++ [digitChar (n % 10)] from rfl]
  by_cases h : n < 10
  · rw [if_pos h, if_pos h]
  · rw [if_neg h, if_neg h]
    have hdiv : n / 10 < n := Nat.div_lt_self (by omega) (by omega)
    congr 1
    exact toDecimalAux_fuel n (n / 10 + 1) (n / 10) (by omega) (by omega)

theorem toDecimal_ne_nil (n : Nat) : toDecimal n ≠ [] := by
  rw [toDecimal_eq n]
  by_cases h : n < 10
  · rw [if_pos h]; simp
  · rw [if_neg h]; simp

theorem toDecimal_digits (n : Nat) : ∀ c ∈ toDecimal n, c.isDigit = true := by
  induction n using Nat.strong_induction_on with
  | _ n ih =>
    rw [toDecimal_eq n]
    by_cases h : n < 10
    · rw [if_pos h]
      intro c hc
      rw [List.mem_singleton.mp hc]
      exact digitChar_isDigit n h
    · rw [if_neg h]
      intro c hc
      rcases List.mem_append.mp hc with hc | hc
      · exact ih (n / 10) (Nat.div_lt_self (by omega) (by omega)) c hc
      · rw [List.mem_singleton.mp hc]
        exact digitChar_isDigit _ (Nat.mod_lt _ (by omega))

theorem toDecimal_no_dot (n : Nat) : '.' ∉ toDecimal n := by
  intro hmem
  exact absurd (toDecimal_digits n '.' hmem) (by decide)

theorem digitsToNat_append (xs : Str) (c : Char) :
    digitsToNat (xs ++ [c]) = 10 * digitsToNat xs + (c.toNat - Char.toNat '0') := by
  unfold digitsToNat
  rw [List.foldl_append]
  rfl

theorem digitsToNat_toDecimal (n : Nat) : digitsToNat (toDecimal n) = n := by
  induction n using Nat.strong_induction_on with
  | _ n ih =>
    rw [toDecimal_eq n]
    by_cases h : n < 10
    · rw [if_pos h]
      show digitsToNat ([] ++ [digitChar n]) = n
      rw [digitsToNat_append, digitChar_val n h]
      simp [digitsToNat]
    · rw [if_neg h, digitsToNat_append,
        ih (n / 10) (Nat.div_lt_self (by omega) (by omega)),
        digitChar_val _ (Nat.mod_lt _ (by omega))]
      omega

theorem splitOnDot_ne_nil (s : Str) : splitOnDot s ≠ [] := by
  cases s with
  | nil => simp [splitOnDot]
  | cons c cs =>
    unfold splitOnDot
    by_cases h : c = '.'
    · rw [if_pos h]; simp
    · rw [if_neg h]
      cases hs : splitOnDot cs <;> simp

theorem splitOnDot_cons_ne (c : Char) (cs : Str) (h : c ≠ '.') :
    splitOnDot (c :: cs) =
      match splitOnDot cs with
      | [] => [[c]]
      | p :: ps => (c :: p) :: ps := by
  conv_lhs => unfold splitOnDot
  rw [if_neg h]

theorem splitOnDot_no_dot (s : Str) (h : '.' ∉ s) : splitOnDot s = [s] := by
  induction s with
  | nil => rfl
  | cons c cs ih =>
    have hc : c ≠ '.' := fun hc => h (by rw [hc]; exact List.mem_cons_self '.' cs)
    have hcs : '.' ∉ cs := fun hx => h (List.mem_cons_of_mem _ hx)
    rw [splitOnDot_cons_ne c cs hc, ih hcs]

theorem splitOnDot_append (x y : Str) (h : '.' ∉ x) :
    splitOnDot (x ++ '.' :: y) = x :: splitOnDot y := by
  induction x with
  | nil => simp [splitOnDot]
  | cons c x ih =>
    have hc : c ≠ '.' := fun hc => h (by rw [hc]; exact List.mem_cons_self '.' x)
    have hx : '.' ∉ x := fun hx => h (List.mem_cons_of_mem _ hx)
    rw [List.cons_append, splitOnDot_cons_ne c _ hc, ih hx]

theorem joinDots_cons (p : Str) (l : List Str) (h : l ≠ []) :
    joinDots (p :: l) = p ++ '.' :: joinDots l := by
  cases l with
  | nil => exact absurd rfl h
  | cons q l => rfl

theorem joinDots_splitOnDot (s : Str) : joinDots (splitOnDot s) = s := by
  induction s with
  | nil => rfl
  | cons c cs ih =>
    unfold splitOnDot
    by_cases h : c = '.'
    · subst h
      rw [if_pos rfl, joinDots_cons [] _ (splitOnDot_ne_nil cs), ih]
      rfl
    · rw [if_neg h]
      cases hs : splitOnDot cs with
      | nil => exact absurd hs (splitOnDot_ne_nil cs)
      | cons p ps =>
        rw [hs] at ih
        cases ps with
        | nil =>
          show c :: p = c :: cs
          rw [show p = cs from ih]
        | cons q ps =>
          rw [joinDots_cons (c :: p) (q :: ps) (by simp),
            ← ih, joinDots_cons p (q :: ps) (by simp)]
          rfl

theorem length_four {α : Type} : ∀ l : List α, l.length = 4 →
    ∃ a b c d, l = [a, b, c, d]
  | [a, b, c, d], _ => ⟨a, b, c, d, rfl⟩
  | [], h => by simp at h
  | [_], h => by simp at h
  | [_, _], h => by simp at h
  | [_, _, _], h => by simp at h
  | _ :: _ :: _ :: _ :: _ :: _, h => by simp at h

theorem octet_check (p : Str) :
    ((if ¬ jsAllDigits p then false
      else decide (digitsToNat p ≤ 255) && (toDecimal (digitsToNat p) == p)) = true) ↔
      ∃ a : Nat, a ≤ 255 ∧ p = toDecimal a := by
  constructor
  · intro h
    by_cases hd : jsAllDigits p = true
    · rw [if_neg (not_not_intro hd), Bool.and_eq_true] at h
      obtain ⟨h1, h2⟩ := h
      exact ⟨digitsToNat p, of_decide_eq_true h1, (beq_iff_eq.mp h2).symm⟩
    · rw [if_pos (by simpa using hd)] at h
      cases h
  · rintro ⟨a, ha, rfl⟩
    have hd : jsAllDigits (toDecimal a) = true := by
      unfold jsAllDigits
      rw [Bool.and_eq_true]
      refine ⟨?_, ?_⟩
      · cases hn : toDecimal a with
        | nil => exact absurd hn (toDecimal_ne_nil a)
        | cons c cs => rfl
      · exact List.all_eq_true.mpr (toDecimal_digits a)
    rw [if_neg (not_not_intro hd), digitsToNat_toDecimal, Bool.and_eq_true]
    exact ⟨decide_eq_true ha, beq_self_eq_true _⟩

theorem isIPv4_iff_specIPv4 (s : Str) : isIPv4 s = true ↔ specIPv4 s := by
  constructor
  · intro h
    unfold isIPv4 at h
    by_cases hl : (splitOnDot s).length = 4
    · rw [if_neg (not_not_intro hl)] at h
      obtain ⟨p0, p1, p2, p3, hE⟩ := length_four (splitOnDot s) hl
      rw [hE] at h
      simp only [List.all_cons, List.all_nil, Bool.and_eq_true, Bool.and_true] at h
      obtain ⟨h0, h1, h2, h3⟩ := h
      obtain ⟨a, ha, hpa⟩ := (octet_check p0).mp h0
      obtain ⟨b, hb, hpb⟩ := (octet_check p1).mp h1
      obtain ⟨c, hc, hpc⟩ := (octet_check p2).mp h2
      obtain ⟨d, hd, hpd⟩ := (octet_check p3).mp h3
      refine ⟨a, b, c, d, ha, hb, hc, hd, ?_⟩
      rw [← joinDots_splitOnDot s, hE, hpa, hpb, hpc, hpd]
      rfl
    · rw [if_pos hl] at h
      cases h
  · rintro ⟨a, b, c, d, ha, hb, hc, hd, rfl⟩
    have hsplit :
        splitOnDot (toDecimal a ++ '.' :: (toDecimal b ++ '.' ::
            (toDecimal c ++ '.' :: toDecimal d))) =
          [toDecimal a, toDecimal b, toDecimal c, toDecimal d] := by
      rw [splitOnDot_append _ _ (toDecimal_no_dot a),
        splitOnDot_append _ _ (toDecimal_no_dot b),
        splitOnDot_append _ _ (toDecimal_no_dot c),
        splitOnDot_no_dot _ (toDecimal_no_dot d)]
    have hform :
        isIPv4 (toDecimal a ++ '.' :: (toDecimal b ++ '.' ::
            (toDecimal c ++ '.' :: toDecimal d))) =
          [toDecimal a, toDecimal b, toDecimal c, toDecimal d].all (fun p =>
            if ¬ jsAllDigits p then false
            else decide (digitsToNat p ≤ 255) && (toDecimal (digitsToNat p) == p)) := by
      unfold isIPv4
      rw [hsplit]
      rfl
    rw [hform]
    simp only [List.all_cons, List.all_nil, Bool.and_eq_true, Bool.and_true]
    exact ⟨(octet_check _).mpr ⟨a, ha, rfl⟩, (octet_check _).mpr ⟨b, hb, rfl⟩,
      (octet_check _).mpr ⟨c, hc, rfl⟩, (octet_check _).mpr ⟨d, hd, rfl⟩⟩

/-- C5: the validator accepts `10.0.0.1` and rejects `10.0.0.256`,
`10.0.0` and `abc.def.gh.i`; in general it accepts exactly the strings of
four dot-separated decimal octets, each in 0–255, written canonically (no
leading-zero mismatch); and a device whose address fails validation
produces no mutation and no outcome. -/
theorem ipv4_validation :
    (isIPv4 "10.0.0.1".data = true ∧ isIPv4 "10.0.0.256".data = false ∧
      isIPv4 "10.0.0".data = false ∧ isIPv4 "abc.def.gh.i".data = false) ∧
    (∀ s : Str, isIPv4 s = true ↔ specIPv4 s) ∧
    (∀ (zone_name : Str) (records : List (Str × Record)) (device : Device),
        isIPv4 (contentOf device) = false →
        update_dns_record zone_name records device = ([], none)) :=
  ⟨⟨by decide, by decide, by decide, by decide⟩, isIPv4_iff_specIPv4, udr_invalid⟩

/-- Witness for C5 at concrete inputs: `10.0.0.1` is in the spec's accepted
set, and a device resolving to the invalid `10.0.0.256` issues no mutation
and no outcome. -/
theorem ipv4_validation_witness :
    specIPv4 "10.0.0.1".data ∧
      update_dns_record ['z'] [(['r'], ⟨"a.z".data, "1.2.3.4".data⟩)]
          ⟨['a'], some 1, JVal.jstr "10.0.0.256".data⟩ = ([], none) :=
  ⟨(ipv4_validation.2.1 "10.0.0.1".data).mp (by decide),
   ipv4_validation.2.2 ['z'] [(['r'], ⟨"a.z".data, "1.2.3.4".data⟩)]
     ⟨['a'], some 1, JVal.jstr "10.0.0.256".data⟩ (by decide)⟩

theorem mView_cons (n : Str) (e : Str × Record) (rest : List (Str × Record)) :
    mView n (e :: rest) =
      if e.2.name == n then e :: mView n rest else mView n rest :=
  List.filter_cons

theorem mem_mView_name (n : Str) (records : List (Str × Record))
    (e : Str × Record) (h : e ∈ mView n records) : e.2.name = n := by
  unfold mView at h
  rw [List.mem_filter] at h
  exact beq_iff_eq.mp h.2

theorem mem_of_mem_mView (n : Str) (records : List (Str × Record))
    (e : Str × Record) (h : e ∈ mView n records) : e ∈ records := by
  unfold mView at h
  rw [List.mem_filter] at h
  exact h.1

theorem applyMut_update_eq (fid : Str) (recs : List (Str × Record))
    (i n t c : Str) (ttl : Nat) :
    applyMut fid recs (Mutation.update i n t c ttl) =
      recs.map (fun e => if e.1 == i then (e.1, (⟨n, c⟩ : Record)) else e) :=
  rfl

theorem mView_applyMut_create_other (n n' : Str) (recs : List (Str × Record))
    (fid : Str) (t c : Str) (ttl : Nat) (hnn : n' ≠ n) :
    mView n (applyMut fid recs (Mutation.create n' t c ttl)) = mView n recs := by
  unfold applyMut mView
  rw [List.filter_append]
  have hb : ((⟨n', c⟩ : Record).name == n) = false :=
    beq_eq_false_iff_ne.mpr hnn
  have hone : List.filter (fun e => e.2.name == n) [(fid, (⟨n', c⟩ : Record))] = [] := by
    simp [List.filter_cons, hb]
  rw [hone, List.append_nil]

theorem applyMut_update_nil (fid : Str) (i n t c : Str) (ttl : Nat) :
    applyMut fid [] (Mutation.update i n t c ttl) = [] :=
  rfl

theorem applyMut_update_cons0 (fid : Str) (e : Str × Record)
    (rest : List (Str × Record)) (i n t c : Str) (ttl : Nat) :
    applyMut fid (e :: rest) (Mutation.update i n t c ttl) =
      (if e.1 == i then (e.1, (⟨n, c⟩ : Record)) else e) ::
        applyMut fid rest (Mutation.update i n t c ttl) :=
  rfl

theorem applyMut_update_skip (i : Str) (recs : List (Str × Record)) (fid : Str)
    (n c t : Str) (ttl : Nat) (h : i ∉ recs.map Prod.fst) :
    applyMut fid recs (Mutation.update i n t c ttl) = recs := by
  induction recs with
  | nil => rfl
  | cons e rest ih =>
    rw [List.map_cons] at h
    have h1 : i ≠ e.1 := fun hh => h (by rw [hh]; exact List.mem_cons_self _ _)
    have h2 : i ∉ rest.map Prod.fst := fun hh => h (List.mem_cons_of_mem _ hh)
    have hb : (e.1 == i) = false := beq_eq_false_iff_ne.mpr (fun hh => h1 hh.symm)
    rw [applyMut_update_cons0, ih h2,
      show (if (e.1 == i) = true then (e.1, (⟨n, c⟩ : Record)) else e) = e from by
        simp [hb]]

theorem applyMut_update_fst (i : Str) (recs : List (Str × Record)) (fid : Str)
    (n c t : Str) (ttl : Nat) :
    (applyMut fid recs (Mutation.update i n t c ttl)).map Prod.fst =
      recs.map Prod.fst := by
  induction recs with
  | nil => rfl
  | cons e rest ih =>
    rw [applyMut_update_cons0, List.map_cons, List.map_cons, ih]
    by_cases hb : (e.1 == i) = true <;> simp [hb]

theorem mView_applyMut_update_other (n n' : Str) (recs : List (Str × Record))
    (fid i : Str) (c t : Str) (ttl : Nat) (hnn : n' ≠ n)
    (hi : i ∉ (mView n recs).map Prod.fst) :
    mView n (applyMut fid recs (Mutation.update i n' t c ttl)) = mView n recs := by
  revert hi
  induction recs with
  | nil => intro hi; rfl
  | cons e rest ih =>
    intro hi
    rw [applyMut_update_cons0]
    by_cases hname : (e.2.name == n) = true
    · rw [mView_cons, if_pos hname, List.map_cons] at hi
      have h1 : e.1 ≠ i := fun hh => hi (by rw [← hh]; exact List.mem_cons_self _ _)
      have h2 : i ∉ (mView n rest).map Prod.fst :=
        fun hh => hi (List.mem_cons_of_mem _ hh)
      have hb : (e.1 == i) = false := beq_eq_false_iff_ne.mpr h1
      rw [show (if (e.1 == i) = true then (e.1, (⟨n', c⟩ : Record)) else e) = e from by
        simp [hb]]
      rw [mView_cons, if_pos hname, mView_cons, if_pos hname, ih h2]
    · rw [mView_cons, if_neg hname] at hi
      have hrhs : mView n (e :: rest) = mView n rest := by
        rw [mView_cons, if_neg hname]
      rw [hrhs]
      by_cases hei : (e.1 == i) = true
      · rw [show (if (e.1 == i) = true then (e.1, (⟨n', c⟩ : Record)) else e) =
            (e.1, (⟨n', c⟩ : Record)) from by simp [hei]]
        rw [mView_cons, if_neg (fun hh => hnn (beq_iff_eq.mp hh))]
        exact ih hi
      · rw [show (if (e.1 == i) = true then (e.1, (⟨n', c⟩ : Record)) else e) = e from by
          simp [hei]]
        rw [mView_cons, if_neg hname]
        exact ih hi

theorem mView_applyMut_own_create (n : Str) (recs : List (Str × Record))
    (fid : Str) (t c : Str) (ttl : Nat) (h : mView n recs = []) :
    mView n (applyMut fid recs (Mutation.create n t c ttl)) = [(fid, ⟨n, c⟩)] := by
  unfold applyMut
  unfold mView at h ⊢
  rw [List.filter_append, h, List.nil_append]
  simp [List.filter_cons]

theorem mView_applyMut_own_update (n i c t : Str) (ttl : Nat) (fid : Str) :
    ∀ (recs : List (Str × Record)) (rec0 : Record) (tl : List (Str × Record)),
      mView n recs = (i, rec0) :: tl →
      (recs.map Prod.fst).count i = 1 →
      mView n (applyMut fid recs (Mutation.update i n t c ttl)) =
        (i, ⟨n, c⟩) :: tl := by
  intro recs
  induction recs with
  | nil =>
    intro rec0 tl hm _
    exact absurd hm (by simp [mView])
  | cons e rest ih =>
    intro rec0 tl hm hcount
    rw [List.map_cons, List.count_cons] at hcount
    rw [applyMut_update_cons0]
    by_cases hname : (e.2.name == n) = true
    · rw [mView_cons, if_pos hname] at hm
      obtain ⟨he, htl⟩ := List.cons_eq_cons.mp hm
      subst he
      rw [if_pos (show (((i, rec0) : Str × Record).1 == i) = true from by simp)]
        at hcount
      have hnotin : i ∉ rest.map Prod.fst := by
        rw [← List.count_eq_zero]
        omega
      rw [applyMut_update_skip i rest fid n c t ttl hnotin]
      rw [show (if ((i, rec0).1 == i) = true then ((i, rec0).1, (⟨n, c⟩ : Record))
          else (i, rec0)) = (i, ⟨n, c⟩) from by simp]
      rw [mView_cons, if_pos (by simp), htl]
    · rw [mView_cons, if_neg hname] at hm
      have himem : i ∈ rest.map Prod.fst := by
        have hmm : (i, rec0) ∈ mView n rest := by
          rw [hm]; exact List.mem_cons_self _ _
        exact List.mem_map.mpr ⟨(i, rec0), mem_of_mem_mView _ _ _ hmm, rfl⟩
      have hpos : 0 < (rest.map Prod.fst).count i := List.count_pos_iff.mpr himem
      have hei : (e.1 == i) = false := by
        by_cases hq : e.1 = i
        · exfalso
          rw [if_pos (show (e.1 == i) = true from by simp [hq])] at hcount
          omega
        · exact beq_eq_false_iff_ne.mpr hq
      rw [if_neg (show ¬ ((e.1 == i) = true) from by simp [hei])] at hcount
      have hcount' : (rest.map Prod.fst).count i = 1 := by omega
      rw [show (if (e.1 == i) = true then (e.1, (⟨n, c⟩ : Record)) else e) = e from by
        simp [hei]]
      rw [mView_cons, if_neg hname]
      exact ih rec0 tl hm hcount'

theorem applyMut_create_eq (fid : Str) (recs : List (Str × Record))
    (n t c : Str) (ttl : Nat) :
    applyMut fid recs (Mutation.create n t c ttl) = recs ++ [(fid, ⟨n, c⟩)] :=
  rfl

theorem apply_mutations_nil (fresh : Nat → Str) (recs : List (Str × Record))
    (k : Nat) : apply_mutations fresh recs k [] = recs :=
  rfl

theorem apply_mutations_create (fresh : Nat → Str) (recs : List (Str × Record))
    (k : Nat) (n t c : Str) (ttl : Nat) (ms : List Mutation) :
    apply_mutations fresh recs k (Mutation.create n t c ttl :: ms) =
      apply_mutations fresh
        (applyMut (fresh k) recs (Mutation.create n t c ttl)) (k + 1) ms :=
  rfl

theorem apply_mutations_update (fresh : Nat → Str) (recs : List (Str × Record))
    (k : Nat) (i n t c : Str) (ttl : Nat) (ms : List Mutation) :
    apply_mutations fresh recs k (Mutation.update i n t c ttl :: ms) =
      apply_mutations fresh
        (applyMut (fresh k) recs (Mutation.update i n t c ttl)) k ms :=
  rfl

theorem mView_apply_other (n : Str) (fresh : Nat → Str) :
    ∀ (ms : List Mutation) (recs : List (Str × Record)) (k : Nat),
      (∀ m ∈ ms, mutName m ≠ n) →
      (∀ m ∈ ms, ∀ i, updId m = some i → i ∉ (mView n recs).map Prod.fst) →
      mView n (apply_mutations fresh recs k ms) = mView n recs := by
  intro ms
  induction ms with
  | nil => intro recs k _ _; rfl
  | cons m ms ih =>
    intro recs k hname hid
    cases m with
    | create n' t c ttl =>
      have hview : mView n (applyMut (fresh k) recs (Mutation.create n' t c ttl)) =
          mView n recs :=
        mView_applyMut_create_other n n' recs (fresh k) t c ttl
          (hname _ (List.mem_cons_self _ _))
      rw [apply_mutations_create,
        ih (applyMut (fresh k) recs (Mutation.create n' t c ttl)) (k + 1)
          (fun m hm => hname m (List.mem_cons_of_mem _ hm))
          (fun m hm i hupd => by
            rw [hview]
            exact hid m (List.mem_cons_of_mem _ hm) i hupd),
        hview]
    | update i' n' t c ttl =>
      have hview : mView n (applyMut (fresh k) recs (Mutation.update i' n' t c ttl)) =
          mView n recs :=
        mView_applyMut_update_other n n' recs (fresh k) i' c t ttl
          (hname _ (List.mem_cons_self _ _))
          (hid _ (List.mem_cons_self _ _) i' rfl)
      rw [apply_mutations_update,
        ih (applyMut (fresh k) recs (Mutation.update i' n' t c ttl)) k
          (fun m hm => hname m (List.mem_cons_of_mem _ hm))
          (fun m hm i hupd => by
            rw [hview]
            exact hid m (List.mem_cons_of_mem _ hm) i hupd),
        hview]

theorem apply_mutations_append (fresh : Nat → Str) :
    ∀ (ms₁ ms₂ : List Mutation) (recs : List (Str × Record)) (k : Nat),
      apply_mutations fresh recs k (ms₁ ++ ms₂) =
        apply_mutations fresh (apply_mutations fresh recs k ms₁)
          (k + countCreates ms₁) ms₂ := by
  intro ms₁
  induction ms₁ with
  | nil => intro ms₂ recs k; rfl
  | cons m ms ih =>
    intro ms₂ recs k
    cases m with
    | create n t c ttl =>
      have hk : k + countCreates (Mutation.create n t c ttl :: ms) =
          k + 1 + countCreates ms := by
        simp only [countCreates]
        omega
      rw [List.cons_append, apply_mutations_create, ih, apply_mutations_create, hk]
    | update i n t c ttl =>
      rw [List.cons_append, apply_mutations_update, ih, apply_mutations_update,
        show countCreates (Mutation.update i n t c ttl :: ms) = countCreates ms
          from rfl]

theorem apply_mutations_fst (fresh : Nat → Str) :
    ∀ (ms : List Mutation) (recs : List (Str × Record)) (k : Nat),
      ∃ ext : List Str,
        (apply_mutations fresh recs k ms).map Prod.fst =
            recs.map Prod.fst ++ ext ∧
          ∀ x ∈ ext, ∃ j, x = fresh j := by
  intro ms
  induction ms with
  | nil =>
    intro recs k
    exact ⟨[], by rw [apply_mutations_nil, List.append_nil], by simp⟩
  | cons m ms ih =>
    intro recs k
    cases m with
    | create n t c ttl =>
      obtain ⟨ext, hext, hfr⟩ :=
        ih (applyMut (fresh k) recs (Mutation.create n t c ttl)) (k + 1)
      refine ⟨fresh k :: ext, ?_, ?_⟩
      · rw [apply_mutations_create, hext,
          show (applyMut (fresh k) recs (Mutation.create n t c ttl)).map Prod.fst =
              recs.map Prod.fst ++ [fresh k] from by
            rw [applyMut_create_eq, List.map_append]
            rfl,
          List.append_assoc]
        rfl
      · intro x hx
        rcases List.mem_cons.mp hx with rfl | hx
        · exact ⟨k, rfl⟩
        · exact hfr x hx
    | update i n t c ttl =>
      obtain ⟨ext, hext, hfr⟩ :=
        ih (applyMut (fresh k) recs (Mutation.update i n t c ttl)) k
      exact ⟨ext,
        by rw [apply_mutations_update, hext, applyMut_update_fst], hfr⟩

theorem update_dns_records_append (zone_name : Str) (records : List (Str × Record))
    (l₁ l₂ : List (Str × Device)) :
    update_dns_records zone_name records (l₁ ++ l₂) =
      update_dns_records zone_name records l₁ ++
        update_dns_records zone_name records l₂ := by
  unfold update_dns_records
  rw [List.map_append, List.flatten_append]

theorem mem_update_dns_records (zone_name : Str) (records : List (Str × Record))
    (devices : List (Str × Device)) (m : Mutation)
    (h : m ∈ update_dns_records zone_name records devices) :
    ∃ e ∈ devices, m ∈ (update_dns_record zone_name records e.2).1 := by
  unfold update_dns_records at h
  rw [List.mem_flatten] at h
  obtain ⟨l, hl, hm⟩ := h
  obtain ⟨e, he, rfl⟩ := List.mem_map.mp hl
  exact ⟨e, he, hm⟩

theorem head_id_not_in_other (records : List (Str × Record))
    (hids : (records.map Prod.fst).Nodup) (n n' : Str) (hnn : n' ≠ n)
    (i : Str) (rec : Record) (tl : List (Str × Record))
    (hh : mView n' records = (i, rec) :: tl) :
    i ∉ (mView n records).map Prod.fst := by
  intro hmem
  obtain ⟨e2, hmem2, hfst⟩ := List.mem_map.mp hmem
  have h1 : (i, rec) ∈ records :=
    mem_of_mem_mView n' records _ (by rw [hh]; exact List.mem_cons_self _ _)
  have h1n : rec.name = n' :=
    mem_mView_name n' records _ (by rw [hh]; exact List.mem_cons_self _ _)
  have h2 : e2 ∈ records := mem_of_mem_mView n records e2 hmem2
  have h2n : e2.2.name = n := mem_mView_name n records e2 hmem2
  have heq : (i, rec) = e2 :=
    List.inj_on_of_nodup_map hids h1 h2 (show Prod.fst (i, rec) = Prod.fst e2 from
      hfst.symm)
  rw [← heq] at h2n
  exact hnn (h1n.symm.trans h2n)

theorem count_eq_one_of_nodup_mem (l : List Str) (hnd : l.Nodup) (a : Str)
    (ha : a ∈ l) : l.count a = 1 := by
  induction l with
  | nil => cases ha
  | cons b l ih =>
    rw [List.count_cons]
    rcases List.mem_cons.mp ha with rfl | ha'
    · rw [if_pos (by simp), List.count_eq_zero.mpr (List.nodup_cons.mp hnd).1]
    · have hne : b ≠ a := fun hh => (List.nodup_cons.mp hnd).1 (hh ▸ ha')
      rw [if_neg (by simp [hne]), ih (List.nodup_cons.mp hnd).2 ha']

theorem count_one_after_apply (records : List (Str × Record)) (fresh : Nat → Str)
    (hids : (records.map Prod.fst).Nodup)
    (hfresh : ∀ j, fresh j ∉ records.map Prod.fst)
    (ms : List Mutation) (k : Nat) (i : Str) (hi : i ∈ records.map Prod.fst) :
    ((apply_mutations fresh records k ms).map Prod.fst).count i = 1 := by
  obtain ⟨ext, hext, hfr⟩ := apply_mutations_fst fresh ms records k
  rw [hext, List.count_append]
  have h1 : (records.map Prod.fst).count i = 1 :=
    count_eq_one_of_nodup_mem _ hids i hi
  have h0 : ext.count i = 0 := by
    rw [List.count_eq_zero]
    intro hmem
    obtain ⟨j, hj⟩ := hfr i hmem
    exact hfresh j (hj ▸ hi)
  omega

theorem update_dns_records_eq_nil (zone_name : Str) (records : List (Str × Record))
    (devices : List (Str × Device))
    (h : ∀ x ∈ devices, (update_dns_record zone_name records x.2).1 = []) :
    update_dns_records zone_name records devices = [] := by
  induction devices with
  | nil => rfl
  | cons d ds ih =>
    rw [update_dns_records_cons, h d (List.mem_cons_self _ _), List.nil_append]
    exact ih (fun x hx => h x (List.mem_cons_of_mem _ hx))

theorem second_run_head (zone_name : Str) (records : List (Str × Record))
    (devices : List (Str × Device)) (fresh : Nat → Str)
    (hids : (records.map Prod.fst).Nodup)
    (hfresh : ∀ j, fresh j ∉ records.map Prod.fst)
    (hnames : ((devices.filter (fun x => isIPv4 (contentOf x.2))).map
        (fun x => fqdn zone_name x.2)).Nodup)
    (e : Str × Device) (he : e ∈ devices)
    (hv : isIPv4 (contentOf e.2) = true) :
    ∃ i rec tl,
      mView (fqdn zone_name e.2)
          (apply_mutations fresh records 0
            (update_dns_records zone_name records devices)) =
        (i, rec) :: tl ∧ rec.content = contentOf e.2 := by
  obtain ⟨l₁, l₂, rfl⟩ := List.append_of_mem he
  have hfil : (l₁ ++ e :: l₂).filter (fun x => isIPv4 (contentOf x.2)) =
      l₁.filter (fun x => isIPv4 (contentOf x.2)) ++
        e :: l₂.filter (fun x => isIPv4 (contentOf x.2)) := by
    rw [List.filter_append, List.filter_cons, if_pos hv]
  rw [hfil, List.map_append, List.map_cons] at hnames
  have hkey := List.nodup_cons.mp (List.nodup_middle.mp hnames)
  have honames : ∀ x, (x ∈ l₁ ∨ x ∈ l₂) → isIPv4 (contentOf x.2) = true →
      fqdn zone_name x.2 ≠ fqdn zone_name e.2 := by
    intro x hx hvx heq
    apply hkey.1
    rw [← heq]
    rcases hx with hx | hx
    · exact List.mem_append.mpr (Or.inl (List.mem_map.mpr
        ⟨x, List.mem_filter.mpr ⟨hx, hvx⟩, rfl⟩))
    · exact List.mem_append.mpr (Or.inr (List.mem_map.mpr
        ⟨x, List.mem_filter.mpr ⟨hx, hvx⟩, rfl⟩))
  have hmutname : ∀ l : List (Str × Device), (∀ x ∈ l, x ∈ l₁ ∨ x ∈ l₂) →
      ∀ m ∈ update_dns_records zone_name records l,
        mutName m ≠ fqdn zone_name e.2 := by
    intro l hl m hm
    obtain ⟨x, hx, hmx⟩ := mem_update_dns_records _ _ _ _ hm
    obtain ⟨hvx, hcase⟩ := udr_mut_mem _ _ _ _ hmx
    rcases hcase with ⟨_, rfl⟩ | ⟨i', rec, tl, _, _, rfl⟩
    · exact honames x (hl x hx) hvx
    · exact honames x (hl x hx) hvx
  have hmutid : ∀ l : List (Str × Device), (∀ x ∈ l, x ∈ l₁ ∨ x ∈ l₂) →
      ∀ m ∈ update_dns_records zone_name records l, ∀ i, updId m = some i →
        i ∈ records.map Prod.fst ∧
          i ∉ (mView (fqdn zone_name e.2) records).map Prod.fst := by
    intro l hl m hm i hupd
    obtain ⟨x, hx, hmx⟩ := mem_update_dns_records _ _ _ _ hm
    obtain ⟨hvx, hcase⟩ := udr_mut_mem _ _ _ _ hmx
    rcases hcase with ⟨_, rfl⟩ | ⟨i', rec, tl, hview, _, rfl⟩
    · cases hupd
    · obtain rfl : i' = i := Option.some.inj hupd
      constructor
      · exact List.mem_map.mpr ⟨(i', rec), mem_of_mem_mView _ _ _
          (by rw [hview]; exact List.mem_cons_self _ _), rfl⟩
      · exact head_id_not_in_other records hids (fqdn zone_name e.2)
          (fqdn zone_name x.2) (honames x (hl x hx) hvx) i' rec tl hview
  have hM : update_dns_records zone_name records (l₁ ++ e :: l₂) =
      update_dns_records zone_name records l₁ ++
        ((update_dns_record zone_name records e.2).1 ++
          update_dns_records zone_name records l₂) := by
    rw [update_dns_records_append, update_dns_records_cons]
  rw [hM, apply_mutations_append fresh, apply_mutations_append fresh]
  have hview1 : mView (fqdn zone_name e.2)
      (apply_mutations fresh records 0 (update_dns_records zone_name records l₁)) =
      mView (fqdn zone_name e.2) records :=
    mView_apply_other _ fresh _ records 0
      (hmutname l₁ (fun x hx => Or.inl hx))
      (fun m hm i hupd => (hmutid l₁ (fun x hx => Or.inl hx) m hm i hupd).2)
  rcases udr_len zone_name records e.2 with h0 | ⟨m, hm⟩
  · -- untouched on the first run: the record already held the desired content
    obtain ⟨i0, rec0, tl0, hm0, hc0⟩ := udr_nil_of zone_name records e.2 hv h0
    refine ⟨i0, rec0, tl0, ?_, hc0⟩
    rw [h0, apply_mutations_nil]
    rw [mView_apply_other _ fresh _ _ _
      (hmutname l₂ (fun x hx => Or.inr hx))
      (fun m hm i hupd => by
        rw [hview1]
        exact (hmutid l₂ (fun x hx => Or.inr hx) m hm i hupd).2),
      hview1, hm0]
  · have hmm : m ∈ (update_dns_record zone_name records e.2).1 := by
      rw [hm]; exact List.mem_cons_self _ _
    obtain ⟨_, hcase⟩ := udr_mut_mem _ _ _ _ hmm
    rcases hcase with ⟨hm0, rfl⟩ | ⟨i0, rec0, tl0, hm0, hne0, rfl⟩
    · -- created on the first run
      rw [hm, apply_mutations_create, apply_mutations_nil]
      have hview2 : mView (fqdn zone_name e.2)
          (applyMut (fresh (0 + countCreates (update_dns_records zone_name records l₁)))
            (apply_mutations fresh records 0 (update_dns_records zone_name records l₁))
            (Mutation.create (fqdn zone_name e.2) aType (contentOf e.2) 300)) =
          [(fresh (0 + countCreates (update_dns_records zone_name records l₁)),
            ⟨fqdn zone_name e.2, contentOf e.2⟩)] :=
        mView_applyMut_own_create _ _ _ _ _ _ (hview1.trans hm0)
      refine ⟨fresh (0 + countCreates (update_dns_records zone_name records l₁)),
        ⟨fqdn zone_name e.2, contentOf e.2⟩, [], ?_, rfl⟩
      rw [mView_apply_other _ fresh _ _ _
        (hmutname l₂ (fun x hx => Or.inr hx))
        (fun m hm i hupd => by
          rw [hview2]
          intro hmem
          rw [List.map_cons, List.map_nil, List.mem_singleton] at hmem
          have horig := (hmutid l₂ (fun x hx => Or.inr hx) m hm i hupd).1
          rw [hmem] at horig
          exact hfresh _ horig),
        hview2]
    · -- updated on the first run
      have hi0 : i0 ∈ records.map Prod.fst :=
        List.mem_map.mpr ⟨(i0, rec0), mem_of_mem_mView _ _ _
          (by rw [hm0]; exact List.mem_cons_self _ _), rfl⟩
      have hcount1 : ((apply_mutations fresh records 0
          (update_dns_records zone_name records l₁)).map Prod.fst).count i0 = 1 :=
        count_one_after_apply records fresh hids hfresh _ 0 i0 hi0
      rw [hm, apply_mutations_update, apply_mutations_nil]
      have hview2 : mView (fqdn zone_name e.2)
          (applyMut (fresh (0 + countCreates (update_dns_records zone_name records l₁)))
            (apply_mutations fresh records 0 (update_dns_records zone_name records l₁))
            (Mutation.update i0 (fqdn zone_name e.2) aType (contentOf e.2) 300)) =
          (i0, ⟨fqdn zone_name e.2, contentOf e.2⟩) :: tl0 :=
        mView_applyMut_own_update _ _ _ _ _ _ _ rec0 tl0 (hview1.trans hm0) hcount1
      refine ⟨i0, ⟨fqdn zone_name e.2, contentOf e.2⟩, tl0, ?_, rfl⟩
      rw [mView_apply_other _ fresh _ _ _
        (hmutname l₂ (fun x hx => Or.inr hx))
        (fun m hm i hupd => by
          rw [hview2]
          have hsame : ((i0, (⟨fqdn zone_name e.2, contentOf e.2⟩ : Record)) ::
              tl0).map Prod.fst =
              ((mView (fqdn zone_name e.2) records).map Prod.fst) := by
            rw [hm0, List.map_cons, List.map_cons]
          rw [hsame]
          exact (hmutid l₂ (fun x hx => Or.inr hx) m hm i hupd).2),
        hview2]

/-- Counterexample to C2 as stated: two observations of the same device
name (the deduplicator keeps both), resolving to two different addresses,
against an initially empty zone.  The first run issues two CREATEs for the
same fully-qualified name; feeding the resulting record set into the
second run, the engine issues an UPDATE on the second run (and every later
run: the two surviving devices fight over the first matching record), where
the claim predicts zero creates and zero updates. -/
theorem second_run_counterexample :
    update_dns_records ['z']
        (apply_mutations (fun k => if k = 0 then ['f'] else ['g']) [] 0
          (update_dns_records ['z'] []
            (assign_ips (fun id =>
                if id = ['a'] then ⟨200, true, true, some (some "1.2.3.4".data)⟩
                else ⟨200, true, true, some (some "5.6.7.8".data)⟩)
              (get_devices (fun s => if s = ['1'] then some 1 else some 2)
                [⟨['a'], ['n'], ['1']⟩, ⟨['b'], ['n'], ['2']⟩]))))
        (assign_ips (fun id =>
            if id = ['a'] then ⟨200, true, true, some (some "1.2.3.4".data)⟩
            else ⟨200, true, true, some (some "5.6.7.8".data)⟩)
          (get_devices (fun s => if s = ['1'] then some 1 else some 2)
            [⟨['a'], ['n'], ['1']⟩, ⟨['b'], ['n'], ['2']⟩])) =
      [Mutation.update ['f'] "n.z".data aType "5.6.7.8".data 300] := by
  decide

/-- C2 amended: feeding the record set produced by one run into a second
run with the same devices and addresses issues zero creates and zero
updates, provided no two devices with validated addresses map to the same
fully-qualified name (the record snapshot having unique record ids, and
provider-assigned ids of created records being fresh).  Without the
distinct-name proviso the second run can mutate, as the deduplicator may
emit several same-name devices. -/
theorem second_run_no_mutations (zone_name : Str) (records : List (Str × Record))
    (devices : List (Str × Device)) (fresh : Nat → Str)
    (hids : (records.map Prod.fst).Nodup)
    (hfresh : ∀ j, fresh j ∉ records.map Prod.fst)
    (hnames : ((devices.filter (fun x => isIPv4 (contentOf x.2))).map
        (fun x => fqdn zone_name x.2)).Nodup) :
    update_dns_records zone_name
      (apply_mutations fresh records 0
        (update_dns_records zone_name records devices))
      devices = [] := by
  apply update_dns_records_eq_nil
  intro x hx
  by_cases hvx : isIPv4 (contentOf x.2) = true
  · obtain ⟨i, rec, tl, hm, hc⟩ :=
      second_run_head zone_name records devices fresh hids hfresh hnames x hx hvx
    rw [udr_untouched _ _ _ i rec tl hvx hm hc]
  · rw [udr_invalid _ _ _ (by simpa using hvx)]

/-- Witness for the amended C2 at concrete inputs: two distinctly named
devices, one needing an UPDATE (stale record) and one a CREATE, against a
one-record snapshot; the second run issues no mutation. -/
theorem second_run_no_mutations_witness :
    update_dns_records ['z']
        (apply_mutations (fun _ => ['f'])
          [(['r'], ⟨"a.z".data, "9.9.9.9".data⟩)] 0
          (update_dns_records ['z'] [(['r'], ⟨"a.z".data, "9.9.9.9".data⟩)]
            [(['x'], ⟨['a'], some 1, JVal.jstr "1.2.3.4".data⟩),
             (['y'], ⟨['b'], some 1, JVal.jstr "5.6.7.8".data⟩)]))
        [(['x'], ⟨['a'], some 1, JVal.jstr "1.2.3.4".data⟩),
         (['y'], ⟨['b'], some 1, JVal.jstr "5.6.7.8".data⟩)] = [] :=
  second_run_no_mutations ['z'] [(['r'], ⟨"a.z".data, "9.9.9.9".data⟩)]
    [(['x'], ⟨['a'], some 1, JVal.jstr "1.2.3.4".data⟩),
     (['y'], ⟨['b'], some 1, JVal.jstr "5.6.7.8".data⟩)]
    (fun _ => ['f']) (by decide)
    (fun j => by
      show (['f'] : Str) ∉ List.map Prod.fst
        [(['r'], (⟨"a.z".data, "9.9.9.9".data⟩ : Record))]
      decide)
    (by decide)

end ZTDNS
